import Mathlib

/-!
Verification of the destination-path inference engine and file-handling
pipeline of `ultimate_downloader_v4.29.py`.

The Python code works on Unicode strings; we model a string as a
`List Char` (one entry per code point, as in Python), with `String`
wrappers at the API boundary.  Each `re.sub`/`re.search` call of the
source is hand-compiled into a deterministic scanner that mirrors the
semantics of the concrete pattern (leftmost match, alternatives in
order, greedy quantifiers).  Word characters (`\w`), used by the `\b`
assertions of the patterns, are ASCII alphanumerics, the underscore and
non-ASCII code points other than the CJK punctuation that appears in the
source's own patterns.  Recursions that are not structural on the string
use an explicit fuel argument initialised to the string length; every
step consumes at least one character, so the fuel never runs out.
Filesystem and network effects are modelled by explicit oracles (`FS`,
poll-status functions) and action traces.
-/

/-- Python `\s` (the whitespace class used by the source's patterns):
space, tab, newline, carriage return, vertical tab, form feed. -/
def isPySpace (c : Char) : Bool :=
  [32, 9, 10, 13, 11, 12].contains c.toNat

/-- CJK punctuation occurring in the source's patterns; these are not
word characters for `\b` purposes in Python. -/
def cjkPunct : List Char := ['｜', '：', '–', '—', '《', '》', '「', '」', '【', '】']

/-- Python `\w` for the purposes of the `\b` assertions in the source. -/
def isWordChar (c : Char) : Bool :=
  ('_' == c || c.isAlphanum) || (decide (128 ≤ c.toNat) && !cjkPunct.contains c)

def isDig (c : Char) : Bool := '0' ≤ c && c ≤ '9'

def digitVal (c : Char) : Nat := c.toNat - '0'.toNat

def natOfDigits (l : List Char) : Nat := l.foldl (fun a c => a * 10 + digitVal c) 0

/-- Case folding for the `(?i)` flag: ASCII lowering plus the two
non-ASCII letters appearing in the source's case-insensitive patterns. -/
def lowerFold (c : Char) : Char :=
  if c == 'Ế' then 'ế' else if c == 'Ậ' then 'ậ' else c.toLower

def ciEq (a b : Char) : Bool := lowerFold a == lowerFold b

/-- Case-insensitively strip literal `pat` from the front of `s`,
returning the rest on success. -/
def ciStripPrefix : List Char → List Char → Option (List Char)
  | [], s => some s
  | _ :: _, [] => none
  | p :: ps, c :: cs => if ciEq p c then ciStripPrefix ps cs else none

/-- Models `needle in haystack` (Python substring test). -/
def containsSub (needle : List Char) : List Char → Bool
  | [] => needle.isEmpty
  | c :: cs => needle.isPrefixOf (c :: cs) || containsSub needle cs

/-- Models `\b` seen from the left: `prev` is the character before the match
position (`none` at the start of the string). -/
def boundaryL : Option Char → Bool
  | none => true
  | some p => !isWordChar p

/-- Models `\b` seen from the right: the rest of the string after the match. -/
def boundaryR : List Char → Bool
  | [] => true
  | c :: _ => !isWordChar c

/-- Python `str.strip()` on a character list. -/
def pyStripL (s : List Char) : List Char :=
  ((s.dropWhile isPySpace).reverse.dropWhile isPySpace).reverse

def pyStrip (s : String) : String := String.mk (pyStripL s.data)

/-- Models `re.sub(pat, '', s)` for a pattern with no `\b` context: `tryM`
reports the length (at least 1) of a match anchored at the current
position.  The scan is leftmost; on a match the scanner resumes after
the match. -/
def subAllFuel (tryM : List Char → Option Nat) : Nat → List Char → List Char
  | 0, s => s
  | _, [] => []
  | fuel + 1, c :: cs =>
    match tryM (c :: cs) with
    | some (k + 1) => subAllFuel tryM fuel (cs.drop k)
    | _ => c :: subAllFuel tryM fuel cs

def subAll (tryM : List Char → Option Nat) (s : List Char) : List Char :=
  subAllFuel tryM s.length s

/-- As `subAll` but the matcher also sees the previous character of the
original string (for `\b`); after a replacement the previous character
is the last character of the removed span, as in Python. -/
def subAllBFuel (tryM : Option Char → List Char → Option Nat) :
    Nat → Option Char → List Char → List Char
  | 0, _, s => s
  | _, _, [] => []
  | fuel + 1, prev, c :: cs =>
    match tryM prev (c :: cs) with
    | some (k + 1) => subAllBFuel tryM fuel (some ((c :: cs).getD k c)) (cs.drop k)
    | _ => c :: subAllBFuel tryM fuel (some c) cs

def subAllB (tryM : Option Char → List Char → Option Nat) (s : List Char) : List Char :=
  subAllBFuel tryM s.length none s

/-- Models `re.search`: find the leftmost position at which `tryM` matches,
returning the index and the matcher's payload. -/
def searchB (tryM : Option Char → List Char → Option α) :
    Option Char → Nat → List Char → Option (Nat × α)
  | _, _, [] => none
  | prev, i, c :: cs =>
    match tryM prev (c :: cs) with
    | some a => some (i, a)
    | none => searchB tryM (some c) (i + 1) cs

/-! ### `urllib.parse.unquote` (used by `sanitize_filename`) -/

def hexVal (c : Char) : Option Nat :=
  if isDig c then some (digitVal c)
  else if 97 ≤ c.toNat && c.toNat ≤ 102 then some (c.toNat - 87)
  else if 65 ≤ c.toNat && c.toNat ≤ 70 then some (c.toNat - 55)
  else none

/-- Collect a maximal leading run of `%XX` escapes into byte values. -/
def pctRun : List Char → List Nat × List Char
  | '%' :: a :: b :: rest =>
    match hexVal a, hexVal b with
    | some ha, some hb =>
      let (bs, r) := pctRun rest
      ((ha * 16 + hb) :: bs, r)
    | _, _ => ([], '%' :: a :: b :: rest)
  | s => ([], s)

/-- The replacement character produced by `errors='replace'`. -/
def replChar : Char := '�'

def isContByte (b : Nat) : Bool := 128 ≤ b && b < 192

/-- Decode a byte list as UTF-8, replacing ill-formed sequences. -/
def utf8DecodeFuel : Nat → List Nat → List Char
  | 0, _ => []
  | fuel + 1, bytes =>
    match bytes with
    | [] => []
    | b :: rest =>
      if b < 128 then Char.ofNat b :: utf8DecodeFuel fuel rest
      else if 194 ≤ b && b ≤ 223 then
        match rest with
        | c1 :: r2 =>
          if isContByte c1 then
            Char.ofNat ((b - 192) * 64 + (c1 - 128)) :: utf8DecodeFuel fuel r2
          else replChar :: utf8DecodeFuel fuel rest
        | [] => [replChar]
      else if 224 ≤ b && b ≤ 239 then
        match rest with
        | c1 :: c2 :: r3 =>
          if isContByte c1 && isContByte c2 then
            let v := (b - 224) * 4096 + (c1 - 128) * 64 + (c2 - 128)
            if v < 2048 || (55296 ≤ v && v ≤ 57343) then replChar :: utf8DecodeFuel fuel r3
            else Char.ofNat v :: utf8DecodeFuel fuel r3
          else replChar :: utf8DecodeFuel fuel rest
        | _ => [replChar]
      else if 240 ≤ b && b ≤ 244 then
        match rest with
        | c1 :: c2 :: c3 :: r4 =>
          if isContByte c1 && isContByte c2 && isContByte c3 then
            let v := (b - 240) * 262144 + (c1 - 128) * 4096 + (c2 - 128) * 64 + (c3 - 128)
            if v < 65536 || v > 1114111 then replChar :: utf8DecodeFuel fuel r4
            else Char.ofNat v :: utf8DecodeFuel fuel r4
          else replChar :: utf8DecodeFuel fuel rest
        | _ => [replChar]
      else replChar :: utf8DecodeFuel fuel rest

def utf8Decode (bs : List Nat) : List Char := utf8DecodeFuel bs.length bs

/-- Models `unquote(name)` (line 575 of the source). -/
def unquoteFuel : Nat → List Char → List Char
  | 0, s => s
  | _, [] => []
  | fuel + 1, '%' :: a :: b :: rest =>
    match hexVal a, hexVal b with
    | some _, some _ =>
      let (bs, r) := pctRun ('%' :: a :: b :: rest)
      utf8Decode bs ++ unquoteFuel fuel r
    | _, _ => '%' :: unquoteFuel fuel (a :: b :: rest)
  | fuel + 1, c :: cs => c :: unquoteFuel fuel cs

def unquoteL (s : List Char) : List Char := unquoteFuel s.length s

/-! ### `sanitize_filename` (lines 574-578) -/

/-- The character class `[<>:"/\\|?*]` of line 576. -/
def illegalFsChar (c : Char) : Bool :=
  ['<', '>', ':', '"', '/', '\\', '|', '?', '*'].contains c

/-- Models `re.sub(r'[P]+', ' ', s)` for a character class `P`: collapse each
maximal run of `P`-characters into a single space. -/
def squeezeBy (p : Char → Bool) : List Char → List Char
  | [] => []
  | [c] => if p c then [' '] else [c]
  | c :: c2 :: cs =>
    if p c then
      (if p c2 then squeezeBy p (c2 :: cs) else ' ' :: squeezeBy p (c2 :: cs))
    else c :: squeezeBy p (c2 :: cs)

def sanitize_filenameL (s : List Char) : List Char :=
  let s1 := unquoteL s
  let s2 := s1.map (fun c => if illegalFsChar c then '_' else c)
  pyStripL (squeezeBy (fun c => isPySpace c || c == '_') s2)

def sanitize_filename (s : String) : String := String.mk (sanitize_filenameL s.data)

/-! ### `clean_show_name` (lines 580-592), one definition per `re.sub` -/

/-- Match a sequence of literal segments separated by `\s*`. -/
def matchSegs : List (List Char) → List Char → Option (List Char)
  | [], s => some s
  | [seg], s => ciStripPrefix seg s
  | seg :: rest, s => (ciStripPrefix seg s).bind (fun r => matchSegs rest (r.dropWhile isPySpace))

/-- The alternatives of line 582, in alternation order. -/
def prefixAlts : List (List (List Char)) :=
  [["VIETSUB".data], ["VietSub".data], ["ENGSUB".data], ["EngSub".data],
   ["ENG".data, "SUB".data], ["VIET".data, "SUB".data],
   ["THUYẾT".data, "MINH".data], ["RAW".data], ["FULL".data], ["HD".data]]

/-- The separator class `[|｜:：\-–—]` of line 582. -/
def r1Seps : List Char := ['|', '｜', ':', '：', '-', '–', '—']

/-- Line 582: strip one leading `KEYWORD <sep>` prefix. -/
def clean1 (s : List Char) : List Char :=
  let t := s.dropWhile isPySpace
  match prefixAlts.findSome? (fun alt =>
      (matchSegs alt t).bind (fun r1 =>
        match r1.dropWhile isPySpace with
        | c :: cs => if r1Seps.contains c then some (cs.dropWhile isPySpace) else none
        | [] => none)) with
  | some rest => rest
  | none => s

def matchLit (pat : String) (s : List Char) : Option (List Char) := ciStripPrefix pat.data s

/-- Models `ENG\s*SUB`. -/
def matchEngSub (s : List Char) : Option (List Char) :=
  (ciStripPrefix "ENG".data s).bind (fun r => ciStripPrefix "SUB".data (r.dropWhile isPySpace))

/-- Models `WEB-?DL`. -/
def matchWebDl (s : List Char) : Option (List Char) :=
  (ciStripPrefix "WEB".data s).bind (fun r =>
    ciStripPrefix "DL".data (match r with | '-' :: t => t | _ => r))

/-- Models `DDP\d\.\d`. -/
def matchDdp (s : List Char) : Option (List Char) :=
  (ciStripPrefix "DDP".data s).bind (fun r =>
    match r with
    | d1 :: '.' :: d2 :: rest => if isDig d1 && isDig d2 then some rest else none
    | _ => none)

/-- Models `H\.\d{3}`. -/
def matchHdot (s : List Char) : Option (List Char) :=
  (ciStripPrefix "H".data s).bind (fun r =>
    match r with
    | '.' :: d1 :: d2 :: d3 :: rest =>
      if isDig d1 && isDig d2 && isDig d3 then some rest else none
    | _ => none)

/-- The tag alternatives of line 584, in alternation order. -/
def tagMatchers : List (List Char → Option (List Char)) :=
  [matchEngSub, matchLit "ENGSUB", matchLit "FULL", matchWebDl, matchLit "WEBRip",
   matchLit "BluRay", matchLit "HDR", matchLit "10bit", matchLit "Atmos", matchLit "DV",
   matchLit "Vision", matchDdp, matchLit "x265", matchLit "HEVC", matchLit "x264", matchHdot]

/-- One match of the pattern of line 584 (`\[?\s*TAG\s*\]?`) anchored at
the head of `s`, returning the matched length. -/
def tryTag (s : List Char) : Option Nat :=
  let s1 := match s with | '[' :: t => t | _ => s
  let s2 := s1.dropWhile isPySpace
  (tagMatchers.findSome? (fun m => m s2)).map (fun r3 =>
    let r4 := r3.dropWhile isPySpace
    let r5 := match r4 with | ']' :: t => t | _ => r4
    s.length - r5.length)

/-- Line 584: remove technical tags. -/
def clean2 (s : List Char) : List Char := subAll tryTag s

def resTokens : List String := ["2160p", "1080p", "720p", "480p", "4k", "8k"]

/-- One match of `\b(2160p|1080p|720p|480p|4k|8k)\b` anchored at the
head of `s`, `prev` being the previous character. -/
def tryRes (prev : Option Char) (s : List Char) : Option Nat :=
  if !boundaryL prev then none
  else resTokens.findSome? (fun t =>
    (ciStripPrefix t.data s).bind (fun r =>
      if boundaryR r then some (s.length - r.length) else none))

/-- Line 585: remove resolution tokens. -/
def clean3 (s : List Char) : List Char := subAllB tryRes s

/-- The character class of line 586. -/
def bracketChars : List Char := ['[', ']', '(', ')', '《', '》', '「', '」', '【', '】']

/-- Line 586: brackets become spaces. -/
def clean4 (s : List Char) : List Char :=
  s.map (fun c => if bracketChars.contains c then ' ' else c)

def pipeChars : List Char := ['|', '｜']

/-- Does the whole of `s` match `\s*[|｜]\s*$`?  (Because `\s` contains
the newline, the greedy trailing `\s*` always reaches the true end of
the string, so `$` here coincides with end-of-string.) -/
def pipeSuffixMatch (s : List Char) : Bool :=
  match s.dropWhile isPySpace with
  | c :: cs => pipeChars.contains c && cs.all isPySpace
  | [] => false

/-- Leftmost start index of a `\s*[|｜]\s*$` match. -/
def clean5Aux : List Char → Option Nat
  | [] => none
  | c :: cs => if pipeSuffixMatch (c :: cs) then some 0 else (clean5Aux cs).map (· + 1)

/-- Line 588: remove a trailing pipe section. -/
def clean5 (s : List Char) : List Char :=
  match clean5Aux s with
  | some i => s.take i
  | none => s

/-- The character class `[|｜._-]` of line 589. -/
def sepChars : List Char := ['|', '｜', '.', '_', '-']

/-- Line 589: separators become spaces. -/
def clean6 (s : List Char) : List Char :=
  s.map (fun c => if sepChars.contains c then ' ' else c)

def endWords : List String := ["END", "FINALE", "FINAL"]

/-- Does the whole of `s` match `\s+\b(END|FINALE|FINAL)\b$`?  Returns
`some keepNl`, where `keepNl` records whether `$` matched just before a
final newline (which then survives the substitution). -/
def endSuffixMatch (s : List Char) : Option Bool :=
  if (s.takeWhile isPySpace).isEmpty then none
  else
    endWords.findSome? (fun w =>
      (ciStripPrefix w.data (s.dropWhile isPySpace)).bind (fun r =>
        match r with
        | [] => some false
        | ['\n'] => some true
        | _ => none))

/-- Leftmost start index of a `\s+\b(END|FINALE|FINAL)\b$` match. -/
def clean7Aux : List Char → Option (Nat × Bool)
  | [] => none
  | c :: cs =>
    match endSuffixMatch (c :: cs) with
    | some b => some (0, b)
    | none => (clean7Aux cs).map (fun p => (p.1 + 1, p.2))

/-- Line 590: strip a trailing END/FINALE/FINAL word. -/
def clean7 (s : List Char) : List Char :=
  match clean7Aux s with
  | some (i, keepNl) => s.take i ++ (if keepNl then ['\n'] else [])
  | none => s

/-- Line 591: collapse whitespace and strip. -/
def clean8 (s : List Char) : List Char := pyStripL (squeezeBy isPySpace s)

def cleanPipeline (s : List Char) : List Char :=
  clean8 (clean7 (clean6 (clean5 (clean4 (clean3 (clean2 (clean1 s)))))))

/-- Models `clean_show_name` (lines 580-592). -/
def clean_show_name (s : String) : String :=
  if (cleanPipeline s.data).isEmpty then "Unknown Show" else String.mk (cleanPipeline s.data)


/-! ### Episode/season markers (lines 622-625) and helpers -/

inductive MarkerKind where
  | strict
  | loose
  | asian
deriving DecidableEq, Repr

structure Marker where
  kind : MarkerKind
  startPos : Nat
  endPos : Nat
  season : Nat
  episode : Nat
deriving DecidableEq, Repr

/-- Greedy candidates for `\d{1,2}`: value and rest, longest first. -/
def digits12 : List Char → List (Nat × List Char)
  | a :: b :: rest =>
    if isDig a then
      (if isDig b then [(digitVal a * 10 + digitVal b, rest), (digitVal a, b :: rest)]
       else [(digitVal a, b :: rest)])
    else []
  | [a] => if isDig a then [(digitVal a, [])] else []
  | [] => []

/-- Greedy candidates for `\d{1,3}`: value and rest, longest first. -/
def digits13 : List Char → List (Nat × List Char)
  | a :: b :: c :: rest =>
    if isDig a then
      (if isDig b then
        (if isDig c then
          [(digitVal a * 100 + digitVal b * 10 + digitVal c, rest),
           (digitVal a * 10 + digitVal b, c :: rest), (digitVal a, b :: c :: rest)]
         else [(digitVal a * 10 + digitVal b, c :: rest), (digitVal a, b :: c :: rest)])
       else [(digitVal a, b :: c :: rest)])
    else []
  | [a, b] =>
    if isDig a then
      (if isDig b then [(digitVal a * 10 + digitVal b, []), (digitVal a, [b])]
       else [(digitVal a, [b])])
    else []
  | [a] => if isDig a then [(digitVal a, [])] else []
  | [] => []

/-- One match of `\bS(\d{1,2})E(\d{1,2})\b` (line 622) anchored at the
head of `s`: returns (length, season, episode). -/
def tryStrict (prev : Option Char) (s : List Char) : Option (Nat × Nat × Nat) :=
  if !boundaryL prev then none
  else
    match s with
    | c :: rest =>
      if ciEq c 'S' then
        (digits12 rest).findSome? (fun p =>
          match p.2 with
          | e :: r2 =>
            if ciEq e 'E' then
              (digits12 r2).findSome? (fun q =>
                if boundaryR q.2 then some (s.length - q.2.length, p.1, q.1) else none)
            else none
          | [] => none)
      else none
    | [] => none

def findStrict (s : List Char) : Option Marker :=
  (searchB tryStrict none 0 s).map (fun r =>
    ⟨.strict, r.1, r.1 + r.2.1, r.2.2.1, r.2.2.2⟩)

/-- The keyword candidates of the first loose alternative (line 624),
with `Ep?` expanded greedily, in try order. -/
def looseKw1 : List (List Char) :=
  ["Ep".data, "E".data, "Episode".data, "Tập".data, "Tập phim".data,
   "Folge".data, "Capitulo".data, "Cap".data]

/-- Models `[ .\-_]` of line 624. -/
def looseSepClass : List Char := [' ', '.', '-', '_']

/-- First loose alternative:
`\b(?:Ep?|Episode|Tập|Tập phim|Folge|Capitulo|Cap)[ .\-_]?(\d{1,3})\b`.
Returns (length, episode). -/
def tryLooseA (prev : Option Char) (s : List Char) : Option (Nat × Nat) :=
  if !boundaryL prev then none
  else
    looseKw1.findSome? (fun kw =>
      (ciStripPrefix kw s).bind (fun r1 =>
        let r2 := match r1 with
          | c :: cs => if looseSepClass.contains c then cs else r1
          | [] => r1
        (digits13 r2).findSome? (fun q =>
          if boundaryR q.2 then some (s.length - q.2.length, q.1) else none)))

/-- Opening separators `[|\-–—]` of the second loose alternative. -/
def looseOpen : List Char := ['|', '-', '–', '—']

/-- Second loose alternative:
`[|\-–—]\s*(?:Ep?|Episode|Tập)?\s*(\d{1,3})\s*[|\]]?`.
Returns (length, episode). -/
def tryLooseB (s : List Char) : Option (Nat × Nat) :=
  match s with
  | c :: rest =>
    if looseOpen.contains c then
      let r1 := rest.dropWhile isPySpace
      let kwRests : List (List Char) :=
        (["Ep".data, "E".data, "Episode".data, "Tập".data].filterMap
          (fun kw => ciStripPrefix kw r1)) ++ [r1]
      kwRests.findSome? (fun r2 =>
        (digits13 (r2.dropWhile isPySpace)).findSome? (fun q =>
          let r5 := q.2.dropWhile isPySpace
          let r6 := match r5 with
            | d :: ds => if d == '|' || d == ']' then ds else r5
            | [] => r5
          some (s.length - r6.length, q.1)))
    else none
  | [] => none

def tryLoose (prev : Option Char) (s : List Char) : Option (Nat × Nat) :=
  match tryLooseA prev s with
  | some r => some r
  | none => tryLooseB s

def findLoose (s : List Char) : Option Marker :=
  (searchB tryLoose none 0 s).map (fun r => ⟨.loose, r.1, r.1 + r.2.1, 1, r.2.2⟩)

/-- One match of `(?:第(\d+)集|(\d+)화)` (line 625) anchored at the head
of `s`: returns (length, episode). -/
def tryAsian (s : List Char) : Option (Nat × Nat) :=
  let alt1 : Option (Nat × Nat) :=
    match s with
    | '第' :: rest =>
      let run := rest.takeWhile isDig
      if run.isEmpty then none
      else
        match rest.drop run.length with
        | '集' :: _ => some (run.length + 2, natOfDigits run)
        | _ => none
    | _ => none
  match alt1 with
  | some r => some r
  | none =>
    let run := s.takeWhile isDig
    if run.isEmpty then none
    else
      match s.drop run.length with
      | '화' :: _ => some (run.length + 1, natOfDigits run)
      | _ => none

def findAsian (s : List Char) : Option Marker :=
  (searchB (fun _ t => tryAsian t) none 0 s).map (fun r =>
    ⟨.asian, r.1, r.1 + r.2.1, 1, r.2.2⟩)

/-- Lines 632-639: collect the three family matches and take the one
with the smallest start offset (first family wins ties, as Python's
`min` keeps the first minimal element). -/
def bestMarker (s : List Char) : Option Marker :=
  match [findStrict s, findLoose s, findAsian s].filterMap id with
  | [] => none
  | m :: ms => some (ms.foldl (fun acc x => if x.startPos < acc.startPos then x else acc) m)

/-- One match of `\b(19|20)\d{2}\b` (line 668) anchored at the head. -/
def tryYear (prev : Option Char) (s : List Char) : Option Nat :=
  if !boundaryL prev then none
  else
    match s with
    | a :: b :: c :: d :: rest =>
      if ((a == '1' && b == '9') || (a == '2' && b == '0')) && isDig c && isDig d
          && boundaryR rest then some 4
      else none
    | _ => none

/-- Start index of the year marker, if any. -/
def searchYear (s : List Char) : Option Nat :=
  (searchB tryYear none 0 s).map (·.1)

/-- One match of `(?:Part|Pt)\.?\s*<digit>\b` (lines 615-616). -/
def tryPart (digit : Char) (s : List Char) : Option Unit :=
  (["Part".data, "Pt".data]).findSome? (fun kw =>
    (ciStripPrefix kw s).bind (fun r1 =>
      let r2 := match r1 with | '.' :: cs => cs | _ => r1
      match r2.dropWhile isPySpace with
      | c :: cs => if c == digit && boundaryR cs then some () else none
      | [] => none))

def searchPart (digit : Char) (s : List Char) : Bool :=
  (searchB (fun _ t => tryPart digit t) none 0 s).isSome

/-! ### Path helpers (`os.path`) -/

/-- Does `s` end with `suffix`? (List-level `str.endswith`.) -/
def endsWithL (suffix s : List Char) : Bool := suffix.isSuffixOf s

/-- Models `os.path.join` for two components (POSIX). -/
def posixJoin (a b : String) : String :=
  if b.data.take 1 == ['/'] then b
  else if a.data.isEmpty then b
  else if a.data.getLast? == some '/' then String.mk (a.data ++ b.data)
  else String.mk (a.data ++ '/' :: b.data)

/-- Index of the last occurrence of `c`, if any. -/
def lastIdxOf (c : Char) : List Char → Option Nat
  | [] => none
  | a :: as =>
    match lastIdxOf c as with
    | some j => some (j + 1)
    | none => if a == c then some 0 else none

/-- Models `os.path.splitext` (POSIX): split off the extension. -/
def splitextL (s : List Char) : List Char × List Char :=
  let i := match lastIdxOf '/' s with | some j => j + 1 | none => 0
  let dir := s.take i
  let base := s.drop i
  match lastIdxOf '.' base with
  | some j =>
    if (base.take j).all (· == '.') then (s, [])
    else (dir ++ base.take j, base.drop j)
  | none => (s, [])

def splitextS (s : String) : String × String :=
  let p := splitextL s.data
  (String.mk p.1, String.mk p.2)

/-- Models `os.path.basename` (POSIX). -/
def posixBasename (p : String) : String :=
  match lastIdxOf '/' p.data with
  | some i => String.mk (p.data.drop (i + 1))
  | none => p

/-- Models `os.path.dirname` (POSIX). -/
def posixDirname (p : String) : String :=
  match lastIdxOf '/' p.data with
  | none => ""
  | some i =>
    let head := p.data.take (i + 1)
    if head.all (· == '/') then String.mk head
    else String.mk (head.reverse.dropWhile (· == '/')).reverse

/-- Models `f"{n:02d}"` for the season/episode numbers. -/
def pad2 (n : Nat) : String := if n < 10 then "0" ++ toString n else toString n

/-! ### Configuration and `determine_destination_path` (lines 612-683) -/

def COLAB_ROOT : String := "/content/"
def DRIVE_BASE : String := COLAB_ROOT ++ "drive/My Drive/"
def DRIVE_TV_PATH : String := "TV Shows"
def DRIVE_MOVIE_PATH : String := "Movies"
def DRIVE_YOUTUBE_PATH : String := "YouTube"
def MIN_FILE_SIZE_MB : Nat := 10
def KEEP_EXTENSIONS : List String := [".srt", ".ass", ".sub", ".vtt"]

/-- The ambient configuration read by the resolver: the value of the
`show_name_override` widget. -/
structure Config where
  showNameOverride : String
deriving DecidableEq, Repr

/-- Lines 614-617: multi-part suffix detection. -/
def partSuffixOf (fl : List Char) : String :=
  if containsSub "上篇".data fl || searchPart '1' fl then "-pt1"
  else if containsSub "下篇".data fl || searchPart '2' fl then "-pt2"
  else if containsSub "中篇".data fl then "-pt2"
  else ""

/-- Lines 642-655: season, episode and show name derived from a marker
match (before any manual override). -/
def markerData (fl : List Char) (m : Marker) : Nat × Nat × String :=
  let sn0 := clean_show_name (String.mk (fl.take m.startPos))
  let sn :=
    if sn0.length < 2 && m.kind == .loose then
      let parts := (splitextS (String.mk (fl.drop m.endPos))).1
      if parts.length > 2 then clean_show_name parts else sn0
    else sn0
  (m.season, m.episode, sn)

/-- Lines 677-683: build the TV destination. -/
def tvBuild (filename showName : String) (season episode : Nat) (partSuffix : String) :
    String × String :=
  let basePath := DRIVE_BASE ++ DRIVE_TV_PATH
  let seasonFolder := "Season " ++ pad2 season
  let fullDir := posixJoin (posixJoin basePath showName) seasonFolder
  let ext := (splitextS filename).2
  let newFilename := showName ++ " - S" ++ pad2 season ++ "E" ++ pad2 episode ++ partSuffix ++ ext
  (posixJoin fullDir newFilename, "TV")

/-- Lines 667-675: movie / YouTube fallback. -/
def movieOrYoutube (filename source : String) : String × String :=
  match searchYear filename.data with
  | some yi =>
    (posixJoin (posixJoin (DRIVE_BASE ++ DRIVE_MOVIE_PATH)
      (clean_show_name (String.mk (filename.data.take yi)))) filename, "Movies")
  | none =>
    if source == "youtube" then
      (posixJoin (DRIVE_BASE ++ DRIVE_YOUTUBE_PATH) filename, "YouTube")
    else
      (posixJoin (posixJoin (DRIVE_BASE ++ DRIVE_MOVIE_PATH)
        (clean_show_name (splitextS filename).1)) filename, "Movies")

/-- The body of `determine_destination_path` after the sanitisation of
line 613, on the sanitised filename. -/
def determineCore (cfg : Config) (filename source : String) (playlistIndex : Option Nat) :
    String × String :=
  match bestMarker filename.data, (pyStrip cfg.showNameOverride).isEmpty with
  | none, true => movieOrYoutube filename source
  | some m, true =>
    tvBuild filename (markerData filename.data m).2.2 (markerData filename.data m).1
      (markerData filename.data m).2.1 (partSuffixOf filename.data)
  | some m, false =>
    tvBuild filename (pyStrip cfg.showNameOverride) (markerData filename.data m).1
      (markerData filename.data m).2.1 (partSuffixOf filename.data)
  | none, false =>
    tvBuild filename (pyStrip cfg.showNameOverride) 1
      (match playlistIndex with | some i => i | none => 1) (partSuffixOf filename.data)

/-- Models `determine_destination_path` (lines 612-683).  The returned value of
the Python function depends only on its arguments and on the
`show_name_override` widget (modelled by `cfg`); `dryRun` only
suppresses directory creation, which is a side effect outside the
returned value. -/
def determine_destination_path (cfg : Config) (filename0 source : String)
    (dryRun : Bool) (playlistIndex : Option Nat) : String × String :=
  determineCore cfg (sanitize_filename filename0) source playlistIndex


/-! ### `is_safe_path` (lines 594-601) -/

/-- Lexical `os.path.realpath` on an absolute POSIX path (the scratch
directory is freshly created and empty when the guard runs, so no
symbolic links are involved). -/
def splitSlash : List Char → List (List Char)
  | [] => [[]]
  | '/' :: cs => [] :: splitSlash cs
  | c :: cs =>
    match splitSlash cs with
    | g :: gs => (c :: g) :: gs
    | [] => [[c]]

def normAbsComponents (parts : List (List Char)) : List (List Char) :=
  parts.foldl (fun acc comp =>
    if comp == [] || comp == ['.'] then acc
    else if comp == ['.', '.'] then acc.dropLast
    else acc ++ [comp]) []

def joinSlash : List (List Char) → List Char
  | [] => []
  | [g] => g
  | g :: gs => g ++ '/' :: joinSlash gs

def realpathLex (p : String) : String :=
  String.mk ('/' :: joinSlash (normAbsComponents (splitSlash p.data)))

/-- Models `is_safe_path` (lines 594-601). -/
def is_safe_path (base_dir filename : String) : Bool :=
  let target := realpathLex (posixJoin base_dir filename)
  let basePath := realpathLex base_dir
  (basePath.data ++ ['/']).isPrefixOf target.data || target == basePath

/-- The scratch extraction root (line 987). -/
def extract_temp : String := COLAB_ROOT ++ "temp_extract"

/-! ### Filesystem oracle and the file-processing pipeline (lines 959-1050) -/

/-- Filesystem state as read by the pipeline. -/
structure FS where
  existsAt : String → Bool
  sizeOf : String → Nat
  isDir : String → Bool

/-- Observable filesystem effects of `handle_file_processing`. -/
inductive FileAction where
  | skipJunkName (member : String)
  | skipUnsafe (member : String)
  | extractMember (member : String)
  | removeJunk (path : String)
  | removeDupExtracted (path : String)
  | removeDest (path : String)
  | mkdirs (dir : String)
  | moveTo (src dest : String)
  | wipeScratch
  | deleteArchive (path : String)
  | abortUnreadable (path : String)
deriving DecidableEq, Repr

/-- Lines 1009-1044: processing of one archive member.  Note that the
junk-size and duplicate branches `continue` before the scratch wipe of
lines 1043-1044, so only the move path and the failed-extraction path
wipe the scratch directory. -/
def processArchiveMember (cfg : Config) (fs : FS) (source : String) (fpath : String) :
    List FileAction :=
  if endsWithL "/".data fpath.data || endsWithL "\\".data fpath.data
      || containsSub "__MACOSX".data fpath.data then
    [.skipJunkName fpath]
  else if !is_safe_path extract_temp fpath then
    [.skipUnsafe fpath]
  else
    .extractMember fpath ::
      (if fs.existsAt (posixJoin extract_temp fpath)
          && !fs.isDir (posixJoin extract_temp fpath) then
        (if fs.sizeOf (posixJoin extract_temp fpath) < MIN_FILE_SIZE_MB * 1024 * 1024
            && !KEEP_EXTENSIONS.any (fun e => endsWithL e.data fpath.data) then
          [.removeJunk (posixJoin extract_temp fpath)]
        else if fs.existsAt (determine_destination_path cfg fpath source false none).1 then
          [.removeDupExtracted (posixJoin extract_temp fpath)]
        else
          (if fs.existsAt (posixDirname (determine_destination_path cfg fpath source
              false none).1) then []
           else [.mkdirs (posixDirname (determine_destination_path cfg fpath source
              false none).1)]) ++
          [.moveTo (posixJoin extract_temp fpath)
            (determine_destination_path cfg fpath source false none).1, .wipeScratch])
      else [.wipeScratch])

/-- Result of the member-listing subprocess (lines 992-1000): either the
call raised, or it exited with a code and the listed member paths. -/
inductive ListingResult where
  | raised
  | exited (code : Int) (lines : List String)
deriving DecidableEq, Repr

/-- Lines 986-1050: the archive branch of `handle_file_processing`.  A
raised listing returns early (line 1003); a non-zero exit leaves
`archive_files` empty and falls through to the deletion of line 1046. -/
def handle_archive (cfg : Config) (fs : FS) (source filePath : String)
    (listing : ListingResult) : List FileAction :=
  match listing with
  | .raised => [.abortUnreadable filePath]
  | .exited code lines =>
    let archiveFiles := if code == 0 then lines else []
    (archiveFiles.flatMap (processArchiveMember cfg fs source)) ++ [.deleteArchive filePath]

/-- Split on a literal dot, as Python `str.split('.')`. -/
def splitDot : List Char → List (List Char)
  | [] => [[]]
  | '.' :: cs => [] :: splitDot cs
  | c :: cs =>
    match splitDot cs with
    | g :: gs => (c :: g) :: gs
    | [] => [[c]]

/-- Join with literal dots, as Python `'.'.join`. -/
def joinDot : List (List Char) → List Char
  | [] => []
  | [g] => g
  | g :: gs => g ++ '.' :: joinDot gs

/-- Models `filename.split('.')` of lines 967 and 973. -/
def srtParts (filename : String) : List String := (splitDot filename.data).map String.mk

/-- Models `parts[-2]` of lines 968 and 974. -/
def srtLang (filename : String) : String :=
  (srtParts filename).getD ((srtParts filename).length - 2) ""

/-- Models `len(parts) >= 3 and len(parts[-2]) in [2, 3]` of lines 968/974. -/
def srtSpecial (filename : String) : Bool :=
  decide ((srtParts filename).length ≥ 3)
    && ((srtLang filename).length == 2 || (srtLang filename).length == 3)

/-- Lines 965-968: the name fed to the resolver (a language-tagged
`.srt` has its language component stripped first). -/
def processingNameOf (filename : String) : String :=
  if ((splitextS filename).2 == ".srt") && srtSpecial filename then
    String.mk (joinDot ((splitDot filename.data).take ((splitDot filename.data).length - 2)))
      ++ (splitextS filename).2
  else filename

/-- Models `lang` of line 974. -/
def srtLangOf (filename : String) : String :=
  if srtSpecial filename then srtLang filename else ""

/-- Lines 972-976: re-attach the language tag to the resolved `.srt`
destination. -/
def srtDestAdjust (filename dest0 : String) : String :=
  if (splitextS filename).2 == ".srt" then
    (if srtLangOf filename == "" then (splitextS dest0).1 ++ ".srt"
     else (splitextS dest0).1 ++ "." ++ srtLangOf filename ++ ".srt")
  else dest0

/-- The final destination of the direct (non-archive) branch. -/
def finalDestOf (cfg : Config) (filePath source : String) : String :=
  srtDestAdjust (posixBasename filePath)
    (determine_destination_path cfg (processingNameOf (posixBasename filePath))
      source false none).1

/-- Lines 964-984: the direct (non-archive) branch. -/
def handle_direct_file (cfg : Config) (fs : FS) (filePath source : String) :
    List FileAction :=
  (if fs.existsAt (finalDestOf cfg filePath source) then
    [.removeDest (finalDestOf cfg filePath source)]
   else []) ++
  (if fs.existsAt (posixDirname (finalDestOf cfg filePath source)) then []
   else [.mkdirs (posixDirname (finalDestOf cfg filePath source))]) ++
  [.moveTo filePath (finalDestOf cfg filePath source)]

/-- Models `handle_file_processing` (lines 959-1050), as an action trace. -/
def handle_file_processing (cfg : Config) (fs : FS) (filePath source : String)
    (listing : ListingResult) : List FileAction :=
  if !fs.existsAt filePath then []
  else
    let ext := (splitextS (posixBasename filePath)).2
    if !([".rar", ".zip", ".7z"].contains ext) then
      handle_direct_file cfg fs filePath source
    else
      handle_archive cfg fs source filePath listing

/-! ### Duplicate guard (lines 603-610) and aria2 pre-check (lines 904-912) -/

/-- Models `check_duplicate_in_drive` (lines 603-610): a dry-run resolution
followed by a bare existence test; the size is read only for the log
message. -/
def check_duplicate_in_drive (cfg : Config) (fs : FS) (filename : String)
    (source : String) (playlistIndex : Option Nat) : Bool :=
  fs.existsAt (determine_destination_path cfg filename source true playlistIndex).1

inductive Aria2Pre where
  | skipDuplicate
  | reuseExisting (path : String)
  | startDownload (path : String)
deriving DecidableEq, Repr

/-- The pre-transfer decisions of `download_with_aria2` (lines 904-912):
the Drive duplicate guard, then the local >1 MiB partial-file check. -/
def download_with_aria2_precheck (cfg : Config) (fs : FS) (filename destFolder : String) :
    Aria2Pre :=
  if check_duplicate_in_drive cfg fs (sanitize_filename filename) "generic" none then
    .skipDuplicate
  else if fs.existsAt (posixJoin destFolder (sanitize_filename filename))
      && decide (fs.sizeOf (posixJoin destFolder (sanitize_filename filename))
        > 1024 * 1024) then
    .reuseExisting (posixJoin destFolder (sanitize_filename filename))
  else .startDownload (posixJoin destFolder (sanitize_filename filename))

/-! ### Real-Debrid magnet processing (lines 1086-1106) and task marking
(lines 1693-1704) -/

inductive RDOutcome where
  | apiError (msg : String)
  | resolvedLinks (links : List String) (polls : Nat)
  | timeout (polls : Nat)
deriving DecidableEq, Repr

/-- The poll loop of lines 1096-1102: at most `fuel` polls, 2 s apart;
`i` counts polls made so far. -/
def rdMagnetLoop (statusAt : Nat → String) (links : List String) :
    Nat → Nat → RDOutcome
  | i, 0 => .timeout i
  | i, fuel + 1 =>
    if statusAt i == "downloaded" then .resolvedLinks links (i + 1)
    else rdMagnetLoop statusAt links (i + 1) fuel

/-- Models `time.sleep(2)` of line 1102. -/
def rdPollIntervalSeconds : Nat := 2

/-- Models `range(30)` of line 1096. -/
def rdMaxPolls : Nat := 30

inductive AddMagnetResp where
  | err (msg : String)
  | ok (id : String)
deriving DecidableEq, Repr

/-- The magnet branch of `process_rd_link` (lines 1088-1106), with the
REST responses supplied as oracles. -/
def process_rd_magnet (resp : AddMagnetResp) (statusAt : Nat → String)
    (links : List String) : RDOutcome :=
  match resp with
  | .err m => .apiError m
  | .ok _ => rdMagnetLoop statusAt links 0 rdMaxPolls

def pollsOf : RDOutcome → Nat
  | .apiError _ => 0
  | .resolvedLinks _ p => p
  | .timeout p => p

/-- Lines 1697-1703 of `execute_batch`: after `process_rd_link` returns
the matching task's status is set to `"done"` unconditionally, whatever
the outcome (including a timeout). -/
def rdTaskStatusAfter (_outcome : RDOutcome) : String := "done"


/-! ### Concrete oracles used by the witnesses -/

/-- A filesystem on which every path exists as a large regular file. -/
def fsAll : FS := ⟨fun _ => true, fun _ => 20 * 1024 * 1024, fun _ => false⟩

/-- A filesystem on which every path exists as an empty (zero-byte)
regular file. -/
def fsZero : FS := ⟨fun _ => true, fun _ => 0, fun _ => false⟩

/-- An empty filesystem. -/
def fsNone : FS := ⟨fun _ => false, fun _ => 0, fun _ => false⟩


/-! ## Theorems
Whitespace-normalisation lemmas for the cleaning pipeline come first. -/

theorem squeezeBy_cons_neg (p : Char → Bool) (c : Char) (cs : List Char) (h : p c = false) :
    squeezeBy p (c :: cs) = c :: squeezeBy p cs := by
  cases cs <;> simp [squeezeBy, h]

theorem squeezeBy_cons_pos_pos (p : Char → Bool) (c c2 : Char) (cs : List Char)
    (h : p c = true) (h2 : p c2 = true) :
    squeezeBy p (c :: c2 :: cs) = squeezeBy p (c2 :: cs) := by
  simp [squeezeBy, h, h2]

theorem squeezeBy_cons_pos_neg (p : Char → Bool) (c c2 : Char) (cs : List Char)
    (h : p c = true) (h2 : p c2 = false) :
    squeezeBy p (c :: c2 :: cs) = ' ' :: squeezeBy p (c2 :: cs) := by
  simp [squeezeBy, h, h2]

theorem squeezeBy_pos_nil (p : Char → Bool) (c : Char) (h : p c = true) :
    squeezeBy p [c] = [' '] := by
  simp [squeezeBy, h]

/-- The whitespace-collapse step is the identity on a string whose
whitespace is single plain spaces. -/
theorem squeezeBy_sp_id : ∀ s : List Char,
    (∀ c ∈ s, isPySpace c = true → c = ' ') →
    s.Chain' (fun a b => ¬(isPySpace a = true ∧ isPySpace b = true)) →
    squeezeBy isPySpace s = s := by
  intro s
  induction s with
  | nil => intro _ _; rfl
  | cons c cs ih =>
    intro h1 h2
    cases hc : isPySpace c with
    | false =>
      rw [squeezeBy_cons_neg _ _ _ hc]
      exact congrArg (c :: ·) (ih (fun a ha hsp => h1 a (List.mem_cons_of_mem _ ha) hsp) h2.tail)
    | true =>
      have hcsp : c = ' ' := h1 c (List.mem_cons_self c cs) hc
      cases cs with
      | nil => rw [squeezeBy_pos_nil _ _ hc, hcsp]
      | cons c2 cs2 =>
        have hc2 : isPySpace c2 = false := by
          rcases List.chain'_cons.mp h2 with ⟨hr, _⟩
          cases hx : isPySpace c2 with
          | false => rfl
          | true => exact absurd ⟨hc, hx⟩ hr
        rw [squeezeBy_cons_pos_neg _ _ _ _ hc hc2, hcsp]
        exact congrArg (' ' :: ·)
          (ih (fun a ha hsp => h1 a (List.mem_cons_of_mem _ ha) hsp)
            (List.chain'_cons.mp h2).2)

/-- Characters emitted by the whitespace collapse come from the input
or are plain spaces. -/
theorem squeezeBy_sp_mem : ∀ s : List Char, ∀ c ∈ squeezeBy isPySpace s, c ∈ s ∨ c = ' ' := by
  intro s
  induction s with
  | nil => intro c hc; cases hc
  | cons c0 cs ih =>
    intro c hc
    cases h0 : isPySpace c0 with
    | false =>
      rw [squeezeBy_cons_neg _ _ _ h0] at hc
      rcases List.mem_cons.mp hc with h | h
      · exact Or.inl (h ▸ List.mem_cons_self c0 cs)
      · rcases ih c h with h2 | h2
        · exact Or.inl (List.mem_cons_of_mem _ h2)
        · exact Or.inr h2
    | true =>
      cases cs with
      | nil =>
        rw [squeezeBy_pos_nil _ _ h0] at hc
        rcases List.mem_cons.mp hc with h | h
        · exact Or.inr h
        · cases h
      | cons c2 cs2 =>
        cases h2 : isPySpace c2 with
        | true =>
          rw [squeezeBy_cons_pos_pos _ _ _ _ h0 h2] at hc
          rcases ih c hc with h3 | h3
          · exact Or.inl (List.mem_cons_of_mem _ h3)
          · exact Or.inr h3
        | false =>
          rw [squeezeBy_cons_pos_neg _ _ _ _ h0 h2] at hc
          rcases List.mem_cons.mp hc with h | h
          · exact Or.inr h
          · rcases ih c h with h3 | h3
            · exact Or.inl (List.mem_cons_of_mem _ h3)
            · exact Or.inr h3

/-- Every whitespace character emitted by the collapse is a plain
space. -/
theorem squeezeBy_sp_allsp : ∀ s : List Char, ∀ c ∈ squeezeBy isPySpace s,
    isPySpace c = true → c = ' ' := by
  intro s
  induction s with
  | nil => intro c hc; cases hc
  | cons c0 cs ih =>
    intro c hc hsp
    cases h0 : isPySpace c0 with
    | false =>
      rw [squeezeBy_cons_neg _ _ _ h0] at hc
      rcases List.mem_cons.mp hc with h | h
      · rw [h] at hsp; rw [hsp] at h0; cases h0
      · exact ih c h hsp
    | true =>
      cases cs with
      | nil =>
        rw [squeezeBy_pos_nil _ _ h0] at hc
        rcases List.mem_cons.mp hc with h | h
        · exact h
        · cases h
      | cons c2 cs2 =>
        cases h2 : isPySpace c2 with
        | true =>
          rw [squeezeBy_cons_pos_pos _ _ _ _ h0 h2] at hc
          exact ih c hc hsp
        | false =>
          rw [squeezeBy_cons_pos_neg _ _ _ _ h0 h2] at hc
          rcases List.mem_cons.mp hc with h | h
          · exact h
          · exact ih c h hsp

/-- The head of the collapse of `c :: cs` with `c` not whitespace is
`c` itself (head form of `squeezeBy_cons_neg`). -/
theorem squeezeBy_head_neg (c : Char) (cs : List Char) (h : isPySpace c = false) :
    (squeezeBy isPySpace (c :: cs)).head? = some c := by
  rw [squeezeBy_cons_neg _ _ _ h]; rfl

/-- The collapse output never has two adjacent whitespace characters. -/
theorem squeezeBy_sp_chain : ∀ s : List Char,
    (squeezeBy isPySpace s).Chain' (fun a b => ¬(isPySpace a = true ∧ isPySpace b = true)) := by
  intro s
  induction s with
  | nil => exact List.chain'_nil
  | cons c0 cs ih =>
    cases h0 : isPySpace c0 with
    | false =>
      rw [squeezeBy_cons_neg _ _ _ h0]
      refine List.chain'_cons'.mpr ⟨fun y _ => ?_, ih⟩
      intro ⟨ha, _⟩
      rw [h0] at ha; cases ha
    | true =>
      cases cs with
      | nil =>
        rw [squeezeBy_pos_nil _ _ h0]
        exact List.chain'_singleton _
      | cons c2 cs2 =>
        cases h2 : isPySpace c2 with
        | true => rw [squeezeBy_cons_pos_pos _ _ _ _ h0 h2]; exact ih
        | false =>
          rw [squeezeBy_cons_pos_neg _ _ _ _ h0 h2]
          refine List.chain'_cons'.mpr ⟨fun y hy => ?_, ih⟩
          rw [squeezeBy_head_neg _ _ h2] at hy
          cases hy
          intro ⟨_, hb⟩
          rw [h2] at hb; cases hb

theorem dropWhile_head_not (p : Char → Bool) : ∀ (l : List Char) (c : Char),
    (l.dropWhile p).head? = some c → p c = false := by
  intro l
  induction l with
  | nil => intro c h; cases h
  | cons a as ih =>
    intro c h
    rw [List.dropWhile_cons] at h
    split at h
    · exact ih c h
    · next hpa =>
      have h2 : a = c := by injection h
      subst h2
      cases hx : p a with
      | false => rfl
      | true => exact absurd hx hpa

theorem mem_dropWhile_sub (p : Char → Bool) : ∀ (l : List Char), ∀ c ∈ l.dropWhile p, c ∈ l := by
  intro l
  induction l with
  | nil => intro c hc; cases hc
  | cons a as ih =>
    intro c hc
    rw [List.dropWhile_cons] at hc
    split at hc
    · exact List.mem_cons_of_mem _ (ih c hc)
    · exact hc

theorem mem_pyStripL (s : List Char) : ∀ c ∈ pyStripL s, c ∈ s := by
  intro c hc
  unfold pyStripL at hc
  rw [List.mem_reverse] at hc
  have h1 := mem_dropWhile_sub isPySpace ((s.dropWhile isPySpace).reverse) c hc
  rw [List.mem_reverse] at h1
  exact mem_dropWhile_sub isPySpace s c h1

theorem pyStripL_id (s : List Char)
    (hh : ∀ c, s.head? = some c → isPySpace c = false)
    (hl : ∀ c, s.getLast? = some c → isPySpace c = false) :
    pyStripL s = s := by
  unfold pyStripL
  have h1 : s.dropWhile isPySpace = s := by
    cases s with
    | nil => rfl
    | cons a as =>
      have hfa : isPySpace a = false := hh a rfl
      simp [List.dropWhile_cons, hfa]
  rw [h1]
  have h2 : s.reverse.dropWhile isPySpace = s.reverse := by
    cases hr : s.reverse with
    | nil => rfl
    | cons a as =>
      have hga : s.getLast? = some a := by
        rw [← List.head?_reverse, hr]; rfl
      have hfa : isPySpace a = false := hl a hga
      simp [List.dropWhile_cons, hfa]
  rw [h2, List.reverse_reverse]

theorem pyStripL_last (s : List Char) : ∀ c, (pyStripL s).getLast? = some c →
    isPySpace c = false := by
  intro c hc
  unfold pyStripL at hc
  rw [List.getLast?_reverse] at hc
  exact dropWhile_head_not isPySpace _ c hc

theorem head_append_some (l1 l2 : List Char) (c : Char) (h : l1.head? = some c) :
    (l1 ++ l2).head? = some c := by
  cases l1 with
  | nil => cases h
  | cons x xs => exact h

theorem getLast_append_right (t w : List Char) (c : Char) (h : w.getLast? = some c) :
    (t ++ w).getLast? = some c := by
  rw [← List.head?_reverse, List.reverse_append]
  rw [← List.head?_reverse] at h
  exact head_append_some _ _ _ h

theorem pyStripL_head (s : List Char) : ∀ c, (pyStripL s).head? = some c →
    isPySpace c = false := by
  intro c hc
  unfold pyStripL at hc
  rw [List.head?_reverse] at hc
  have hsplit : ((s.dropWhile isPySpace).reverse.takeWhile isPySpace) ++
      ((s.dropWhile isPySpace).reverse.dropWhile isPySpace) =
      (s.dropWhile isPySpace).reverse :=
    List.takeWhile_append_dropWhile isPySpace ((s.dropWhile isPySpace).reverse)
  have h2 : (s.dropWhile isPySpace).reverse.getLast? = some c := by
    rw [← hsplit]; exact getLast_append_right _ _ _ hc
  rw [List.getLast?_reverse] at h2
  exact dropWhile_head_not isPySpace _ c h2

/-- Chain-connectivity survives dropping a prefix. -/
theorem chain_dropWhile (R : Char → Char → Prop) (p : Char → Bool) (l : List Char)
    (h : l.Chain' R) : (l.dropWhile p).Chain' R := by
  have hsplit : l.takeWhile p ++ l.dropWhile p = l := List.takeWhile_append_dropWhile p l
  rw [← hsplit] at h
  exact h.right_of_append

/-! ### Identity of the character-map stages on already-clean strings -/

theorem map_self (f : Char → Char) : ∀ (s : List Char), (∀ c ∈ s, f c = c) → s.map f = s := by
  intro s
  induction s with
  | nil => intro _; rfl
  | cons a as ih =>
    intro h
    rw [List.map_cons, h a (List.mem_cons_self a as), ih (fun c hc => h c (List.mem_cons_of_mem _ hc))]

theorem clean4_nobracket (s : List Char) : ∀ c ∈ clean4 s, bracketChars.contains c = false := by
  intro c hc
  unfold clean4 at hc
  rcases List.mem_map.mp hc with ⟨a, _, ha⟩
  by_cases hb : bracketChars.contains a = true
  · rw [if_pos hb] at ha; rw [← ha]; decide
  · rw [if_neg hb] at ha; rw [← ha]; exact Bool.not_eq_true _ ▸ Bool.of_not_eq_true hb

theorem mem_clean4 (s : List Char) : ∀ c ∈ clean4 s, c ∈ s ∨ c = ' ' := by
  intro c hc
  rcases List.mem_map.mp hc with ⟨a, haa, ha⟩
  by_cases hb : bracketChars.contains a = true
  · rw [if_pos hb] at ha; exact Or.inr ha.symm
  · rw [if_neg hb] at ha; exact Or.inl (ha ▸ haa)

theorem clean6_nosep (s : List Char) : ∀ c ∈ clean6 s, sepChars.contains c = false := by
  intro c hc
  unfold clean6 at hc
  rcases List.mem_map.mp hc with ⟨a, _, ha⟩
  by_cases hb : sepChars.contains a = true
  · rw [if_pos hb] at ha; rw [← ha]; decide
  · rw [if_neg hb] at ha; rw [← ha]; exact Bool.not_eq_true _ ▸ Bool.of_not_eq_true hb

theorem mem_clean6 (s : List Char) : ∀ c ∈ clean6 s, c ∈ s ∨ c = ' ' := by
  intro c hc
  rcases List.mem_map.mp hc with ⟨a, haa, ha⟩
  by_cases hb : sepChars.contains a = true
  · rw [if_pos hb] at ha; exact Or.inr ha.symm
  · rw [if_neg hb] at ha; exact Or.inl (ha ▸ haa)

theorem clean4_id (s : List Char) (h : ∀ c ∈ s, bracketChars.contains c = false) :
    clean4 s = s := by
  unfold clean4
  exact map_self _ s (fun c hc => if_neg (by rw [h c hc]; exact Bool.false_ne_true))

theorem clean6_id (s : List Char) (h : ∀ c ∈ s, sepChars.contains c = false) :
    clean6 s = s := by
  unfold clean6
  exact map_self _ s (fun c hc => if_neg (by rw [h c hc]; exact Bool.false_ne_true))

theorem pipeSuffix_has_pipe : ∀ s : List Char, pipeSuffixMatch s = true →
    ∃ c, c ∈ s ∧ pipeChars.contains c = true := by
  intro s h
  unfold pipeSuffixMatch at h
  revert h
  cases hd : s.dropWhile isPySpace with
  | nil => intro h; cases h
  | cons c cs =>
    intro h
    have hc : pipeChars.contains c = true := by
      have h2 := h
      simp only [Bool.and_eq_true] at h2
      exact h2.1
    refine ⟨c, ?_, hc⟩
    apply mem_dropWhile_sub isPySpace s
    rw [hd]
    exact List.mem_cons_self c cs

theorem clean5Aux_none : ∀ s : List Char, (∀ c ∈ s, pipeChars.contains c = false) →
    clean5Aux s = none := by
  intro s
  induction s with
  | nil => intro _; rfl
  | cons c cs ih =>
    intro h
    have hm : pipeSuffixMatch (c :: cs) = false := by
      cases hx : pipeSuffixMatch (c :: cs) with
      | false => rfl
      | true =>
        rcases pipeSuffix_has_pipe _ hx with ⟨a, ha, hpa⟩
        rw [h a ha] at hpa; cases hpa
    simp [clean5Aux, hm, ih (fun a ha => h a (List.mem_cons_of_mem _ ha))]

theorem clean5_id (s : List Char) (h : ∀ c ∈ s, pipeChars.contains c = false) :
    clean5 s = s := by
  unfold clean5
  rw [clean5Aux_none s h]

theorem mem_clean5 (s : List Char) : ∀ c ∈ clean5 s, c ∈ s := by
  intro c hc
  unfold clean5 at hc
  revert hc
  cases clean5Aux s with
  | none => exact fun hc => hc
  | some i => exact fun hc => List.take_subset i s hc

theorem mem_clean7 (s : List Char) : ∀ c ∈ clean7 s, c ∈ s ∨ c = '\n' := by
  intro c hc
  unfold clean7 at hc
  revert hc
  cases clean7Aux s with
  | none => exact fun hc => Or.inl hc
  | some p =>
    intro hc
    rcases List.mem_append.mp hc with h | h
    · exact Or.inl (List.take_subset p.1 s h)
    · revert h
      cases p.2 with
      | true => intro h; rcases List.mem_singleton.mp h with rfl; exact Or.inr rfl
      | false => intro h; cases h

theorem clean8_id (s : List Char)
    (h1 : ∀ c ∈ s, isPySpace c = true → c = ' ')
    (h2 : s.Chain' (fun a b => ¬(isPySpace a = true ∧ isPySpace b = true)))
    (h3 : ∀ c, s.head? = some c → isPySpace c = false)
    (h4 : ∀ c, s.getLast? = some c → isPySpace c = false) :
    clean8 s = s := by
  unfold clean8
  rw [squeezeBy_sp_id s h1 h2]
  exact pyStripL_id s h3 h4

theorem mem_clean8 (s : List Char) : ∀ c ∈ clean8 s, c ∈ s ∨ c = ' ' := by
  intro c hc
  exact squeezeBy_sp_mem s c (mem_pyStripL _ c hc)

theorem clean8_allsp (s : List Char) : ∀ c ∈ clean8 s, isPySpace c = true → c = ' ' := by
  intro c hc
  exact squeezeBy_sp_allsp s c (mem_pyStripL _ c hc)

theorem clean8_head (s : List Char) : ∀ c, (clean8 s).head? = some c → isPySpace c = false :=
  pyStripL_head _

theorem clean8_last (s : List Char) : ∀ c, (clean8 s).getLast? = some c → isPySpace c = false :=
  pyStripL_last _

theorem clean8_chain (s : List Char) :
    (clean8 s).Chain' (fun a b => ¬(isPySpace a = true ∧ isPySpace b = true)) := by
  unfold clean8 pyStripL
  have h0 := squeezeBy_sp_chain s
  have h1 := chain_dropWhile _ isPySpace _ h0
  have h2 : (((squeezeBy isPySpace s).dropWhile isPySpace).reverse).Chain'
      (fun a b => ¬(isPySpace a = true ∧ isPySpace b = true)) := by
    rw [List.chain'_reverse]
    exact h1.imp (fun a b hab => fun ⟨x, y⟩ => hab ⟨y, x⟩)
  have h3 := chain_dropWhile _ isPySpace _ h2
  rw [List.chain'_reverse]
  exact h3.imp (fun a b hab => fun ⟨x, y⟩ => hab ⟨y, x⟩)

theorem pipe_of_nosep (c : Char) (h : sepChars.contains c = false) :
    pipeChars.contains c = false := by
  cases hx : pipeChars.contains c with
  | false => rfl
  | true =>
    exfalso
    have hmem : c ∈ pipeChars := List.mem_of_elem_eq_true hx
    have hmem2 : c ∈ sepChars := by
      simp only [pipeChars, List.mem_cons, List.not_mem_nil, or_false] at hmem
      rcases hmem with rfl | rfl <;> simp [sepChars]
    have h2 : sepChars.contains c = true := List.elem_eq_true_of_mem hmem2
    rw [h2] at h
    cases h

theorem pipeline_nobracket (x : List Char) :
    ∀ c ∈ cleanPipeline x, bracketChars.contains c = false := by
  intro c hc
  unfold cleanPipeline at hc
  rcases mem_clean8 _ c hc with h8 | h8
  case inr => rw [h8]; decide
  rcases mem_clean7 _ c h8 with h7 | h7
  case inr => rw [h7]; decide
  rcases mem_clean6 _ c h7 with h6 | h6
  case inr => rw [h6]; decide
  exact clean4_nobracket _ c (mem_clean5 _ c h6)

theorem pipeline_nosep (x : List Char) :
    ∀ c ∈ cleanPipeline x, sepChars.contains c = false := by
  intro c hc
  unfold cleanPipeline at hc
  rcases mem_clean8 _ c hc with h8 | h8
  case inr => rw [h8]; decide
  rcases mem_clean7 _ c h8 with h7 | h7
  case inr => rw [h7]; decide
  exact clean6_nosep _ c h7

/-- If the prefix-strip, tag-strip, resolution-strip and END-strip
stages leave a cleaned string unchanged, the whole pipeline does. -/
theorem cleanPipeline_fix (y : List Char)
    (hb : ∀ c ∈ y, bracketChars.contains c = false)
    (hs : ∀ c ∈ y, sepChars.contains c = false)
    (hsp : ∀ c ∈ y, isPySpace c = true → c = ' ')
    (hch : y.Chain' (fun a b => ¬(isPySpace a = true ∧ isPySpace b = true)))
    (hhd : ∀ c, y.head? = some c → isPySpace c = false)
    (hlt : ∀ c, y.getLast? = some c → isPySpace c = false)
    (H1 : clean1 y = y) (H2 : clean2 y = y) (H3 : clean3 y = y) (H7 : clean7 y = y) :
    cleanPipeline y = y := by
  unfold cleanPipeline
  rw [H1, H2, H3, clean4_id y hb, clean5_id y (fun c hc => pipe_of_nosep c (hs c hc)),
      clean6_id y hs, H7]
  exact clean8_id y hsp hch hhd hlt

theorem head_some_imp (l : List Char) (a : Char) (h : l.head? = some a)
    (P : Char → Prop) (hp : P a) : ∀ c, l.head? = some c → P c := by
  intro c hc
  rw [h] at hc
  injection hc with h2
  exact h2 ▸ hp

theorem getLast_some_imp (l : List Char) (a : Char) (h : l.getLast? = some a)
    (P : Char → Prop) (hp : P a) : ∀ c, l.getLast? = some c → P c := by
  intro c hc
  rw [h] at hc
  injection hc with h2
  exact h2 ▸ hp

theorem clean_show_name_eq_of_fix (y : String) (hfix : cleanPipeline y.data = y.data)
    (hne : y.data ≠ []) : clean_show_name y = y := by
  unfold clean_show_name
  rw [hfix]
  have hcond : ¬((y.data.isEmpty : Bool) = true) := by
    intro hemp
    apply hne
    revert hemp
    cases y.data with
    | nil => intro _; rfl
    | cons a as => intro hemp; cases hemp
  rw [if_neg hcond]

set_option maxHeartbeats 1600000 in
/-- C2 (amended claim): if the prefix-strip (line 582), tag-strip (line
584), resolution-strip (line 585) and END-strip (line 590) stages each
leave the cleaned result of `x` unchanged, then a second application of
`clean_show_name` is the identity on it.  (The remaining stages are
always the identity on cleaned output, which is what this theorem
proves.) -/
theorem clean_show_name_conditionally_idempotent (x : String)
    (H1 : clean1 (clean_show_name x).data = (clean_show_name x).data)
    (H2 : clean2 (clean_show_name x).data = (clean_show_name x).data)
    (H3 : clean3 (clean_show_name x).data = (clean_show_name x).data)
    (H7 : clean7 (clean_show_name x).data = (clean_show_name x).data) :
    clean_show_name (clean_show_name x) = clean_show_name x := by
  have hprops : (∀ c ∈ (clean_show_name x).data, bracketChars.contains c = false) ∧
      (∀ c ∈ (clean_show_name x).data, sepChars.contains c = false) ∧
      (∀ c ∈ (clean_show_name x).data, isPySpace c = true → c = ' ') ∧
      ((clean_show_name x).data.Chain'
        (fun a b => ¬(isPySpace a = true ∧ isPySpace b = true))) ∧
      (∀ c, (clean_show_name x).data.head? = some c → isPySpace c = false) ∧
      (∀ c, (clean_show_name x).data.getLast? = some c → isPySpace c = false) ∧
      (clean_show_name x).data ≠ [] := by
    unfold clean_show_name
    by_cases hre : (cleanPipeline x.data).isEmpty = true
    · rw [if_pos hre]
      have hdata : ("Unknown Show" : String).data
          = ['U', 'n', 'k', 'n', 'o', 'w', 'n', ' ', 'S', 'h', 'o', 'w'] := by decide
      refine ⟨by decide, by decide, by decide, ?_,
        head_some_imp ("Unknown Show" : String).data 'U' (by decide) _ (by decide),
        getLast_some_imp ("Unknown Show" : String).data 'w' (by decide) _ (by decide),
        by decide⟩
      rw [hdata]
      simp only [List.chain'_cons, List.chain'_singleton]
      decide
    · rw [if_neg hre]
      refine ⟨pipeline_nobracket x.data, pipeline_nosep x.data,
        clean8_allsp (clean7 (clean6 (clean5 (clean4 (clean3 (clean2 (clean1 x.data))))))),
        clean8_chain (clean7 (clean6 (clean5 (clean4 (clean3 (clean2 (clean1 x.data))))))),
        clean8_head (clean7 (clean6 (clean5 (clean4 (clean3 (clean2 (clean1 x.data))))))),
        clean8_last (clean7 (clean6 (clean5 (clean4 (clean3 (clean2 (clean1 x.data))))))), ?_⟩
      intro heq
      apply hre
      have h0 : cleanPipeline x.data = [] := heq
      rw [h0]
      rfl
  obtain ⟨hb, hs, hsp, hch, hhd, hlt, hne⟩ := hprops
  exact clean_show_name_eq_of_fix (clean_show_name x)
    (cleanPipeline_fix (clean_show_name x).data hb hs hsp hch hhd hlt H1 H2 H3 H7) hne

/-- C2 (counterexample): the title cleaner is not idempotent.
`"a END "` cleans to `"a END"` (the END-strip of line 590 requires the
marker to sit at the very end, and the trailing space is only removed
by the later whitespace collapse), and a second application then strips
`" END"`. -/
theorem clean_show_name_not_idempotent :
    clean_show_name "a END " = "a END" ∧
    clean_show_name (clean_show_name "a END ") = "a" ∧
    clean_show_name (clean_show_name "a END ") ≠ clean_show_name "a END " :=
  ⟨by decide, by decide, by decide⟩

theorem clean_show_name_conditionally_idempotent_witness :
    clean_show_name (clean_show_name "Some Drama") = clean_show_name "Some Drama" :=
  clean_show_name_conditionally_idempotent "Some Drama"
    (by decide) (by decide) (by decide) (by decide)

/-- C1 (amended claim): for scenario A the resolver returns category TV
with season 1 and episode 5, but the show name keeps the year token
(`clean_show_name` never strips years), giving "Some Drama 2024", and
the TV library root folder is `TV Shows`. -/
theorem scenarioA_actual_resolution :
    determine_destination_path ⟨""⟩ "Some.Drama.2024.S01E05.1080p.WEB-DL.mkv" "generic" true none =
      ("/content/drive/My Drive/TV Shows/Some Drama 2024/Season 01/Some Drama 2024 - S01E05.mkv",
       "TV") := by decide

/-- C1 (counterexample): the claimed destination (show name "Some
Drama", i.e. with the year stripped) is not what the resolver returns,
under either reading of the claimed TV root folder. -/
theorem scenarioA_counterexample :
    (determine_destination_path ⟨""⟩ "Some.Drama.2024.S01E05.1080p.WEB-DL.mkv" "generic"
        true none).1 ≠
      "/content/drive/My Drive/TV/Some Drama/Season 01/Some Drama - S01E05.mkv" ∧
    (determine_destination_path ⟨""⟩ "Some.Drama.2024.S01E05.1080p.WEB-DL.mkv" "generic"
        true none).1 ≠
      "/content/drive/My Drive/TV Shows/Some Drama/Season 01/Some Drama - S01E05.mkv" :=
  ⟨by decide, by decide⟩

theorem minfold_mem : ∀ (ms : List Marker) (m : Marker),
    ms.foldl (fun acc x => if x.startPos < acc.startPos then x else acc) m = m ∨
    ms.foldl (fun acc x => if x.startPos < acc.startPos then x else acc) m ∈ ms := by
  intro ms
  induction ms with
  | nil => intro m; exact Or.inl rfl
  | cons x xs ih =>
    intro m
    rw [List.foldl_cons]
    rcases ih (if x.startPos < m.startPos then x else m) with h | h
    · rw [h]
      by_cases hx : x.startPos < m.startPos
      · rw [if_pos hx]
        exact Or.inr (List.mem_cons_self x xs)
      · rw [if_neg hx]
        exact Or.inl rfl
    · exact Or.inr (List.mem_cons_of_mem x h)

theorem minfold_le : ∀ (ms : List Marker) (m : Marker),
    (ms.foldl (fun acc x => if x.startPos < acc.startPos then x else acc) m).startPos
      ≤ m.startPos ∧
    ∀ x ∈ ms,
      (ms.foldl (fun acc x => if x.startPos < acc.startPos then x else acc) m).startPos
        ≤ x.startPos := by
  intro ms
  induction ms with
  | nil => exact fun m => ⟨le_rfl, fun x hx => absurd hx (List.not_mem_nil x)⟩
  | cons y ys ih =>
    intro m
    rw [List.foldl_cons]
    rcases ih (if y.startPos < m.startPos then y else m) with ⟨h1, h2⟩
    refine ⟨le_trans h1 ?_, ?_⟩
    · by_cases hy : y.startPos < m.startPos
      · rw [if_pos hy]
        omega
      · rw [if_neg hy]
    · intro x hx
      rcases List.mem_cons.mp hx with rfl | hx2
      · refine le_trans h1 ?_
        by_cases hy : x.startPos < m.startPos
        · rw [if_pos hy]
        · rw [if_neg hy]
          omega
      · exact h2 x hx2

theorem mem_filterMap_id3 (o1 o2 o3 : Option Marker) (m : Marker) :
    m ∈ [o1, o2, o3].filterMap id ↔ (o1 = some m ∨ o2 = some m ∨ o3 = some m) := by
  constructor
  · intro h
    rcases List.mem_filterMap.mp h with ⟨o, ho, hom⟩
    rcases List.mem_cons.mp ho with rfl | ho
    · exact Or.inl hom
    rcases List.mem_cons.mp ho with rfl | ho
    · exact Or.inr (Or.inl hom)
    rcases List.mem_cons.mp ho with rfl | ho
    · exact Or.inr (Or.inr hom)
    · cases ho
  · intro h
    rcases h with h | h | h
    · exact List.mem_filterMap.mpr ⟨o1, List.mem_cons_self _ _, h⟩
    · exact List.mem_filterMap.mpr ⟨o2, List.mem_cons_of_mem _ (List.mem_cons_self _ _), h⟩
    · exact List.mem_filterMap.mpr
        ⟨o3, List.mem_cons_of_mem _ (List.mem_cons_of_mem _ (List.mem_cons_self _ _)), h⟩

/-- C3: the resolver's marker selection (lines 632-639) is the leftmost
rule over all three families: whenever it selects a marker, that marker
is one of the family matches, and its start offset is least among every
family's match.  In particular `MyShow.S01E02.Ep03.mkv` resolves through
the strict match at offset 7 (season 1, episode 2, not episode 3), and
`MyShow.Ep03.extra.S01E02.mkv` resolves through the loose match at
offset 7 (episode 3), so no family is preferred over a more leftward
one. -/
theorem leftmost_marker_wins :
    (∀ (f : List Char) (r : Marker), bestMarker f = some r →
      (findStrict f = some r ∨ findLoose f = some r ∨ findAsian f = some r) ∧
      ∀ m : Marker,
        (findStrict f = some m ∨ findLoose f = some m ∨ findAsian f = some m) →
        r.startPos ≤ m.startPos) ∧
    bestMarker ("MyShow.S01E02.Ep03.mkv").data = some ⟨.strict, 7, 13, 1, 2⟩ ∧
    bestMarker ("MyShow.Ep03.extra.S01E02.mkv").data = some ⟨.loose, 7, 11, 1, 3⟩ ∧
    determine_destination_path ⟨""⟩ "MyShow.S01E02.Ep03.mkv" "generic" true none =
      ("/content/drive/My Drive/TV Shows/MyShow/Season 01/MyShow - S01E02.mkv", "TV") := by
  refine ⟨?_, by decide, by decide, by decide⟩
  intro f r hbm
  unfold bestMarker at hbm
  revert hbm
  cases hc : [findStrict f, findLoose f, findAsian f].filterMap id with
  | nil => intro h; cases h
  | cons m0 ms =>
    intro h
    injection h with h2
    constructor
    · have hr : r ∈ [findStrict f, findLoose f, findAsian f].filterMap id := by
        rw [hc, ← h2]
        rcases minfold_mem ms m0 with he | he
        · rw [he]
          exact List.mem_cons_self m0 ms
        · exact List.mem_cons_of_mem m0 he
      exact (mem_filterMap_id3 _ _ _ r).mp hr
    · intro m hm
      have hmem : m ∈ [findStrict f, findLoose f, findAsian f].filterMap id :=
        (mem_filterMap_id3 _ _ _ m).mpr hm
      rw [hc] at hmem
      rcases minfold_le ms m0 with ⟨h1, h2all⟩
      rcases List.mem_cons.mp hmem with rfl | hmem2
      · rw [← h2]
        exact h1
      · rw [← h2]
        exact h2all m hmem2

theorem leftmost_marker_wins_witness :
    (findStrict ("MyShow.S01E02.Ep03.mkv").data = some ⟨.strict, 7, 13, 1, 2⟩ ∨
     findLoose ("MyShow.S01E02.Ep03.mkv").data = some ⟨.strict, 7, 13, 1, 2⟩ ∨
     findAsian ("MyShow.S01E02.Ep03.mkv").data = some ⟨.strict, 7, 13, 1, 2⟩) ∧
    (∀ m : Marker,
      (findStrict ("MyShow.S01E02.Ep03.mkv").data = some m ∨
       findLoose ("MyShow.S01E02.Ep03.mkv").data = some m ∨
       findAsian ("MyShow.S01E02.Ep03.mkv").data = some m) →
      (Marker.mk .strict 7 13 1 2).startPos ≤ m.startPos) :=
  leftmost_marker_wins.1 ("MyShow.S01E02.Ep03.mkv").data ⟨.strict, 7, 13, 1, 2⟩ (by decide)

/-- C4: destination resolution is a pure function of the configuration
and its four arguments: identical arguments give identical results. -/
theorem resolution_deterministic (cfg : Config) (f s : String) (d : Bool) (p : Option Nat)
    (f2 s2 : String) (d2 : Bool) (p2 : Option Nat)
    (hf : f = f2) (hs : s = s2) (hd : d = d2) (hp : p = p2) :
    determine_destination_path cfg f s d p = determine_destination_path cfg f2 s2 d2 p2 := by
  rw [hf, hs, hd, hp]

theorem resolution_deterministic_witness :
    determine_destination_path ⟨""⟩ "A.mkv" "generic" true none =
      determine_destination_path ⟨""⟩ "A.mkv" "generic" true none :=
  resolution_deterministic ⟨""⟩ "A.mkv" "generic" true none "A.mkv" "generic" true none
    rfl rfl rfl rfl

/-- C8: for every non-empty filename the resolver is total and returns
exactly one of the three categories, and the cleaner always degrades to
a non-empty name (worst case the "Unknown Show" placeholder) rather
than rejecting the input. -/
theorem destination_category_total (cfg : Config) (filename source : String)
    (dryRun : Bool) (p : Option Nat) (hne : filename ≠ "") :
    ((determine_destination_path cfg filename source dryRun p).2 = "TV" ∨
     (determine_destination_path cfg filename source dryRun p).2 = "Movies" ∨
     (determine_destination_path cfg filename source dryRun p).2 = "YouTube") ∧
    (∀ x : String, clean_show_name x ≠ "") := by
  constructor
  · unfold determine_destination_path determineCore
    cases hbm : bestMarker (sanitize_filename filename).data with
    | some m =>
      cases hme : (pyStrip cfg.showNameOverride).isEmpty with
      | true => exact Or.inl rfl
      | false => exact Or.inl rfl
    | none =>
      cases hme : (pyStrip cfg.showNameOverride).isEmpty with
      | false => exact Or.inl rfl
      | true =>
        unfold movieOrYoutube
        cases hy : searchYear (sanitize_filename filename).data with
        | some yi => exact Or.inr (Or.inl rfl)
        | none =>
          cases hsrc : source == "youtube" with
          | true => exact Or.inr (Or.inr rfl)
          | false => exact Or.inr (Or.inl rfl)
  · intro x
    unfold clean_show_name
    split
    · decide
    · next hni =>
      intro h
      apply hni
      have h2 : cleanPipeline x.data = [] := by
        have h3 : (String.mk (cleanPipeline x.data)).data = ("" : String).data := by rw [h]
        exact h3
      rw [h2]
      rfl

theorem destination_category_total_witness :
    (((determine_destination_path ⟨""⟩ "clip.mp4" "youtube" true none).2 = "TV" ∨
      (determine_destination_path ⟨""⟩ "clip.mp4" "youtube" true none).2 = "Movies" ∨
      (determine_destination_path ⟨""⟩ "clip.mp4" "youtube" true none).2 = "YouTube") ∧
     (∀ x : String, clean_show_name x ≠ "")) :=
  destination_category_total ⟨""⟩ "clip.mp4" "youtube" true none (by decide)


/-- C5: an archive member whose relative path resolves outside the
scratch extraction root is never extracted: its whole per-member trace
is a single skip (with the unsafe-path warning whenever it reaches the
guard, i.e. it is not already dropped as a directory/`__MACOSX` entry),
and the loop processes every other member exactly as if the unsafe one
were absent. -/
theorem archive_traversal_guard (cfg : Config) (fs : FS) (source m : String)
    (hnosafe : is_safe_path extract_temp m = false) :
    (processArchiveMember cfg fs source m = [.skipUnsafe m] ∨
     processArchiveMember cfg fs source m = [.skipJunkName m]) ∧
    (FileAction.extractMember m ∉ processArchiveMember cfg fs source m) ∧
    ((endsWithL "/".data m.data || endsWithL "\\".data m.data ||
        containsSub "__MACOSX".data m.data) = false →
      processArchiveMember cfg fs source m = [.skipUnsafe m]) ∧
    (∀ (filePath : String) (pre post : List String),
      handle_archive cfg fs source filePath (.exited 0 (pre ++ m :: post)) =
        pre.flatMap (processArchiveMember cfg fs source) ++
        (processArchiveMember cfg fs source m ++
         (post.flatMap (processArchiveMember cfg fs source) ++ [.deleteArchive filePath]))) := by
  have harm : processArchiveMember cfg fs source m = [.skipUnsafe m] ∨
      processArchiveMember cfg fs source m = [.skipJunkName m] := by
    unfold processArchiveMember
    cases hj : (endsWithL "/".data m.data || endsWithL "\\".data m.data ||
        containsSub "__MACOSX".data m.data) with
    | true => exact Or.inr rfl
    | false =>
      left
      rw [hnosafe]
      rfl
  refine ⟨harm, ?_, ?_, ?_⟩
  · intro hmem
    rcases harm with h | h <;> rw [h] at hmem <;> simp at hmem
  · intro hj
    unfold processArchiveMember
    rw [hj, hnosafe]
    rfl
  · intro filePath pre post
    unfold handle_archive
    simp [List.flatMap_append, List.flatMap_cons, List.append_assoc]

theorem archive_traversal_guard_witness :
    is_safe_path extract_temp "../../etc/passwd" = false ∧
    processArchiveMember ⟨""⟩ fsAll "generic" "../../etc/passwd" =
      [.skipUnsafe "../../etc/passwd"] := by
  refine ⟨by decide, ?_⟩
  exact (archive_traversal_guard ⟨""⟩ fsAll "generic" "../../etc/passwd"
    (by decide)).2.2.1 (by decide)

/-- C6 (counterexample): the duplicate guard of lines 603-610 reports a
zero-byte file at the resolved destination as a completed duplicate:
it tests bare existence and reads the size only for the log message. -/
theorem duplicate_guard_size_blind_counterexample :
    check_duplicate_in_drive ⟨""⟩ fsZero "Video.mkv" "generic" none = true ∧
    fsZero.sizeOf (determine_destination_path ⟨""⟩ "Video.mkv" "generic" true none).1 = 0 :=
  ⟨by decide, rfl⟩

/-- C6 (amended claim): the guard's verdict depends only on the
existence oracle and not on the size oracle, any existing destination
file suppresses the fetch in `download_with_aria2`, and the separate
greater-than-1-MiB threshold of line 912 applies only to the local
partially-downloaded file, not to the Drive destination. -/
theorem duplicate_guard_existence_only :
    (∀ (cfg : Config) (e : String → Bool) (sz1 sz2 : String → Nat) (d1 d2 : String → Bool)
       (f s : String) (p : Option Nat),
      check_duplicate_in_drive cfg ⟨e, sz1, d1⟩ f s p =
        check_duplicate_in_drive cfg ⟨e, sz2, d2⟩ f s p) ∧
    (∀ (cfg : Config) (fs : FS) (f folder : String),
      check_duplicate_in_drive cfg fs (sanitize_filename f) "generic" none = true →
      download_with_aria2_precheck cfg fs f folder = .skipDuplicate) ∧
    (∀ (cfg : Config) (fs : FS) (f folder : String),
      check_duplicate_in_drive cfg fs (sanitize_filename f) "generic" none = false →
      fs.existsAt (posixJoin folder (sanitize_filename f)) = true →
      fs.sizeOf (posixJoin folder (sanitize_filename f)) > 1024 * 1024 →
      download_with_aria2_precheck cfg fs f folder =
        .reuseExisting (posixJoin folder (sanitize_filename f))) := by
  refine ⟨?_, ?_, ?_⟩
  · intro cfg e sz1 sz2 d1 d2 f s p
    rfl
  · intro cfg fs f folder h
    unfold download_with_aria2_precheck
    rw [h]
    rfl
  · intro cfg fs f folder h he hsz
    unfold download_with_aria2_precheck
    rw [h, he, decide_eq_true hsz]
    rfl

theorem duplicate_guard_existence_only_witness :
    download_with_aria2_precheck ⟨""⟩ fsZero "Video.mkv" "/content" = .skipDuplicate :=
  duplicate_guard_existence_only.2.1 ⟨""⟩ fsZero "Video.mkv" "/content" (by decide)

/-- An archive-member trace never deletes the archive file itself. -/
theorem member_no_delete (cfg : Config) (fs : FS) (source m q : String) :
    FileAction.deleteArchive q ∉ processArchiveMember cfg fs source m := by
  unfold processArchiveMember
  intro hmem
  repeat' split at hmem
  all_goals simp_all

/-- C7 (counterexample): a member-listing subprocess that exits with a
non-zero code (an unreadable archive) leaves `archive_files` empty, the
loop runs zero times, and line 1046 still deletes the archive file. -/
theorem unreadable_archive_deleted_counterexample :
    handle_archive ⟨""⟩ fsAll "generic" "/content/x.rar" (.exited 1 ["Show.S01E07.mkv"]) =
      [.deleteArchive "/content/x.rar"] ∧
    FileAction.deleteArchive "/content/x.rar" ∈
      handle_archive ⟨""⟩ fsAll "generic" "/content/x.rar" (.exited 1 ["Show.S01E07.mkv"]) :=
  ⟨by decide, by decide⟩

/-- C7 (amended claim): only a listing call that raises aborts the
archive's processing with the file kept in place; any exited listing
call (successful or not) ends with exactly one deletion of the archive,
placed after all member processing. -/
theorem archive_deletion_policy (cfg : Config) (fs : FS) (source filePath : String)
    (code : Int) (lines : List String) :
    FileAction.deleteArchive filePath ∉ handle_archive cfg fs source filePath .raised ∧
    handle_archive cfg fs source filePath .raised = [.abortUnreadable filePath] ∧
    (∃ pre, handle_archive cfg fs source filePath (.exited code lines) =
        pre ++ [.deleteArchive filePath] ∧
      ∀ q, FileAction.deleteArchive q ∉ pre) := by
  refine ⟨?_, rfl, ?_⟩
  · intro hmem
    simp [handle_archive] at hmem
  · refine ⟨(if code == 0 then lines else []).flatMap (processArchiveMember cfg fs source),
      rfl, ?_⟩
    intro q hq
    rcases List.mem_flatMap.mp hq with ⟨m, _, hm⟩
    exact member_no_delete cfg fs source m q hm

theorem rdLoop_polls_le (statusAt : Nat → String) (links : List String) :
    ∀ (fuel i : Nat), pollsOf (rdMagnetLoop statusAt links i fuel) ≤ i + fuel := by
  intro fuel
  induction fuel with
  | zero =>
    intro i
    simp [rdMagnetLoop, pollsOf]
  | succ n ih =>
    intro i
    unfold rdMagnetLoop
    split
    · simp only [pollsOf]
      omega
    · have := ih (i + 1)
      omega

theorem rdLoop_timeout (statusAt : Nat → String) (links : List String) :
    ∀ (fuel i : Nat), (∀ j, i ≤ j → j < i + fuel → statusAt j ≠ "downloaded") →
      rdMagnetLoop statusAt links i fuel = .timeout (i + fuel) := by
  intro fuel
  induction fuel with
  | zero =>
    intro i _
    simp [rdMagnetLoop]
  | succ n ih =>
    intro i h
    have hne : (statusAt i == "downloaded") = false := by
      cases hx : statusAt i == "downloaded" with
      | false => rfl
      | true => exact absurd (eq_of_beq hx) (h i le_rfl (by omega))
    unfold rdMagnetLoop
    rw [hne]
    have hrec := ih (i + 1) (fun j hj1 hj2 => h j (by omega) (by omega))
    rw [if_neg (by simp)]
    rw [hrec, show i + 1 + n = i + (n + 1) from by omega]

/-- C9 (amended claim): a magnet is polled at most 30 times (line 1096)
at a fixed 2-second interval (line 1102); a magnet that never reaches
the "downloaded" status within that bound ends in the timeout outcome
(the "RD Timeout" message of line 1103) — but `execute_batch` then
marks the task "done" (lines 1700-1703), not "failed". -/
theorem magnet_polling_bounded (statusAt : Nat → String) (links : List String)
    (tid : String) :
    pollsOf (process_rd_magnet (.ok tid) statusAt links) ≤ rdMaxPolls ∧
    ((∀ i, i < rdMaxPolls → statusAt i ≠ "downloaded") →
      process_rd_magnet (.ok tid) statusAt links = .timeout rdMaxPolls ∧
      rdTaskStatusAfter (process_rd_magnet (.ok tid) statusAt links) = "done") := by
  constructor
  · have h := rdLoop_polls_le statusAt links rdMaxPolls 0
    simpa [process_rd_magnet] using h
  · intro h
    refine ⟨?_, rfl⟩
    have h2 := rdLoop_timeout statusAt links rdMaxPolls 0 (fun j _ hj2 => h j (by omega))
    simpa [process_rd_magnet] using h2

/-- C9 (counterexample): with a status oracle that never reaches
"downloaded", the magnet branch times out after its 30 polls, yet the
task status written by `execute_batch` is "done", not "failed". -/
theorem magnet_timeout_marked_done_counterexample :
    process_rd_magnet (.ok "t1") (fun _ => "queued") ["L1"] = .timeout 30 ∧
    rdTaskStatusAfter (process_rd_magnet (.ok "t1") (fun _ => "queued") ["L1"]) = "done" ∧
    ("done" : String) ≠ "failed" :=
  ⟨by decide, rfl, by decide⟩

theorem magnet_polling_bounded_witness :
    pollsOf (process_rd_magnet (.ok "t1") (fun _ => "queued") ["L1"]) ≤ rdMaxPolls ∧
    (process_rd_magnet (.ok "t1") (fun _ => "queued") ["L1"] = .timeout rdMaxPolls ∧
     rdTaskStatusAfter (process_rd_magnet (.ok "t1") (fun _ => "queued") ["L1"]) = "done") :=
  ⟨(magnet_polling_bounded (fun _ => "queued") ["L1"] "t1").1,
   (magnet_polling_bounded (fun _ => "queued") ["L1"] "t1").2 (by decide)⟩

/-- C10: overwrite policy.  The direct-file branch deletes any existing
file at its resolved destination (the `.srt` language-tag-adjusted path
included) before moving the new one in (lines 977-981, last writer
wins); the archive-member branch instead removes the freshly extracted
copy and keeps the existing destination file (lines 1032-1035). -/
theorem direct_overwrites_archive_keeps (cfg : Config) (fs : FS) :
    (∀ (fp source : String),
      fs.existsAt (finalDestOf cfg fp source) = true →
      handle_direct_file cfg fs fp source =
        [.removeDest (finalDestOf cfg fp source)] ++
        (if fs.existsAt (posixDirname (finalDestOf cfg fp source)) then []
         else [.mkdirs (posixDirname (finalDestOf cfg fp source))]) ++
        [.moveTo fp (finalDestOf cfg fp source)]) ∧
    (∀ (m source : String),
      (endsWithL "/".data m.data || endsWithL "\\".data m.data ||
        containsSub "__MACOSX".data m.data) = false →
      is_safe_path extract_temp m = true →
      fs.existsAt (posixJoin extract_temp m) = true →
      fs.isDir (posixJoin extract_temp m) = false →
      (fs.sizeOf (posixJoin extract_temp m) < MIN_FILE_SIZE_MB * 1024 * 1024 &&
        !KEEP_EXTENSIONS.any (fun e => endsWithL e.data m.data)) = false →
      fs.existsAt ((determine_destination_path cfg m source false none).1) = true →
      processArchiveMember cfg fs source m =
        [.extractMember m, .removeDupExtracted (posixJoin extract_temp m)]) := by
  constructor
  · intro fp source hex
    unfold handle_direct_file
    rw [hex]
    rfl
  · intro m source hjunk hsafe hex hdir hfilter hdup
    unfold processArchiveMember
    rw [hjunk, hsafe, hex, hdir, hfilter, hdup]
    rfl

theorem direct_overwrites_archive_keeps_witness :
    handle_direct_file ⟨""⟩ fsAll "/content/Show.S01E07.mkv" "generic" =
      [.removeDest "/content/drive/My Drive/TV Shows/Show/Season 01/Show - S01E07.mkv"] ++
      [] ++
      [.moveTo "/content/Show.S01E07.mkv"
        "/content/drive/My Drive/TV Shows/Show/Season 01/Show - S01E07.mkv"] ∧
    handle_direct_file ⟨""⟩ fsAll "/content/Show.S01E07.en.srt" "generic" =
      [.removeDest "/content/drive/My Drive/TV Shows/Show/Season 01/Show - S01E07.en.srt"] ++
      [] ++
      [.moveTo "/content/Show.S01E07.en.srt"
        "/content/drive/My Drive/TV Shows/Show/Season 01/Show - S01E07.en.srt"] ∧
    processArchiveMember ⟨""⟩ fsAll "generic" "Show.S01E07.mkv" =
      [.extractMember "Show.S01E07.mkv",
       .removeDupExtracted "/content/temp_extract/Show.S01E07.mkv"] := by
  refine ⟨?_, ?_, ?_⟩
  · have h := (direct_overwrites_archive_keeps ⟨""⟩ fsAll).1 "/content/Show.S01E07.mkv"
      "generic" (by decide)
    rw [h]
    decide
  · have h := (direct_overwrites_archive_keeps ⟨""⟩ fsAll).1 "/content/Show.S01E07.en.srt"
      "generic" (by decide)
    rw [h]
    decide
  · exact (direct_overwrites_archive_keeps ⟨""⟩ fsAll).2 "Show.S01E07.mkv" "generic"
      (by decide) (by decide) (by decide) (by decide) (by decide) (by decide)

